import Mathlib

/-!
Verification of the Agentic-DevOps query-resolution pipeline.

This file gives a shallow embedding, in Lean 4, of the core components of the
repository (safety classifier, semantic cache, intent router, smart MCP router,
LLM output parsing, backend client, FAISS tool index, tool retriever) and
proves or refutes the specification claims about them.  Each Lean definition
is translated from the corresponding Python definition in the source tree;
where the source calls an external library or a module that is not part of
the sources (httpx, faiss, json_repair, the pulse monitor), the model is
parameterized by the external behaviour or modelled from the specification,
as indicated in the doc comment of the definition concerned.
-/

/-- Substring test on lists of characters: does the needle occur as a
contiguous infix of the haystack?  Mirrors the semantics of the Python
operator `needle in haystack` on strings. -/
def hasSubAux (needle : List Char) : List Char → Bool
  | [] => needle.isEmpty
  | c :: rest => needle.isPrefixOf (c :: rest) || hasSubAux needle rest

/-- Python `needle in hay` for strings (contiguous substring test). -/
def hasSub (hay needle : String) : Bool :=
  hasSubAux needle.data hay.data

/-- Python `s.startswith(p)` (kernel-reducible variant of string prefix). -/
def strPrefixOf (p s : String) : Bool :=
  p.data.isPrefixOf s.data

/-- Python `s.lower()` (ASCII lower-casing, character by character). -/
def strLower (s : String) : String :=
  ⟨s.data.map Char.toLower⟩

/-- Python `dict.get(key, default)` for a string-valued argument record. -/
def argGet (args : List (String × String)) (key dflt : String) : String :=
  (args.lookup key).getD dflt

/-! ## Safety classifier (devops_agent/safety.py) -/

/-- Translation of `DANGEROUS_PREFIXES` from devops_agent/safety.py. -/
def dangerousPrefixList : List String :=
  ["docker_stop", "docker_rm", "docker_prune",
   "k8s_delete", "local_k8s_delete", "remote_k8s_delete",
   "remote_k8s_promote", "remote_k8s_exec"]

/-- Translation of `DANGEROUS_TOOLS_EXACT` from devops_agent/safety.py. -/
def dangerousToolsExact : List String :=
  ["docker_run_container"]

/-- Translation of `is_dangerous` from devops_agent/safety.py: exact-name
membership first, then prefix matching over the dangerous prefix set. -/
def is_dangerous (tool_name : String) : Bool :=
  if dangerousToolsExact.contains tool_name then true
  else dangerousPrefixList.any (fun p => strPrefixOf p tool_name)

/-- Translation of the `RiskAssessment` dataclass from devops_agent/safety.py. -/
structure RiskAssessment where
  is_dangerous : Bool
  risk_level : String
  reason : String
  impact_analysis : List String
deriving DecidableEq, Repr

/-- Impact bullet list chosen by the branch chain in `analyze_risk`
(devops_agent/safety.py, lines 56-98).  The Python code mutates the
`impact_analysis` field of the already-built assessment; here the chain is
factored into the function computing that field. -/
def impactFor (tool_name : String) (arguments : List (String × String)) : List String :=
  if tool_name == "docker_stop_container" then
    let cid := argGet arguments "container_id" "unknown"
    ["Stops container \x27" ++ cid ++ "\x27 immediately.",
     "Service interruption for applications in this container.",
     "Potential data loss in ephemeral volumes."]
  else if tool_name == "docker_run_container" then
    let img := argGet arguments "image" "unknown"
    ["Starts new container from \x27" ++ img ++ "\x27.",
     "Consumes system resources (CPU/RAM).",
     "Binds network ports."]
  else if hasSub tool_name "delete" then
    ["PERMANENTLY removes the target resource.",
     "Cannot be undone.",
     "Service interruption."]
  else if hasSub tool_name "exec" then
    let cmd :=
      match arguments.lookup "command" with
      | some c => c
      | none => argGet arguments "cmd" "unknown command"
    ["Executes arbitrary command: \x27" ++ cmd ++ "\x27",
     "Full shell access risks.",
     "Potential system modification."]
  else if hasSub tool_name "promote" then
    let nm := argGet arguments "name" "unknown"
    let resType := argGet arguments "resource_type" "resource"
    ["Copies " ++ resType ++ " \x27" ++ nm ++ "\x27 to the Remote Cluster.",
     "Modifies remote cluster state.",
     "Potential for configuration drift if versions mismatch."]
  else []

/-- Translation of `analyze_risk` from devops_agent/safety.py.  A pure
function of the tool name and arguments: non-dangerous tools get a LOW
report with empty impact list; dangerous tools get a HIGH report whose
impact bullets come from `impactFor`. -/
def analyze_risk (tool_name : String) (arguments : List (String × String)) : RiskAssessment :=
  if is_dangerous tool_name then
    { is_dangerous := true
      risk_level := "HIGH"
      reason := "Tool \x27" ++ tool_name ++ "\x27 performs destructive or resource-intensive actions."
      impact_analysis := impactFor tool_name arguments }
  else
    { is_dangerous := false, risk_level := "LOW", reason := "", impact_analysis := [] }

/-- The dangerous-name predicate exactly as the specification claim words it:
a prefix from the family docker_stop / docker_rm / docker_prune /
`*_k8s_delete` (with the scope wildcard ranging over the empty, `local_` and
`remote_` scopes used by this code base) / remote_k8s_promote /
remote_k8s_exec, or the exact name docker_run_container. -/
def specDangerous (name : String) : Bool :=
  name == "docker_run_container"
  || (["docker_stop", "docker_rm", "docker_prune",
       "remote_k8s_promote", "remote_k8s_exec"].any (fun p => strPrefixOf p name))
  || (["", "local_", "remote_"].any (fun scope => strPrefixOf (scope ++ "k8s_delete") name))

/-- C1: the safety classifier labels a call dangerous exactly on the
specification's prefix family plus the exact name docker_run_container;
`analyze_risk` is a pure function whose danger flag agrees with
`is_dangerous`, and every non-dangerous name yields the non-dangerous LOW
report with empty reason and impact list.  (Purity and absence of state
mutation hold by construction: the embedding of `analyze_risk` is a function
of its two arguments only, faithfully to the Python code, which only reads
its inputs.) -/
theorem safety_classifier_matches_spec (name : String) (args : List (String × String)) :
    is_dangerous name = specDangerous name
    ∧ (analyze_risk name args).is_dangerous = is_dangerous name
    ∧ (is_dangerous name = false →
        analyze_risk name args = ⟨false, "LOW", "", []⟩) := by
  refine ⟨?_, ?_, ?_⟩
  · have h1 : ("" ++ "k8s_delete" : String) = "k8s_delete" := rfl
    have h2 : ("local_" ++ "k8s_delete" : String) = "local_k8s_delete" := rfl
    have h3 : ("remote_" ++ "k8s_delete" : String) = "remote_k8s_delete" := rfl
    simp only [is_dangerous, specDangerous, dangerousPrefixList, dangerousToolsExact,
      List.contains_cons, List.contains_nil, List.any_cons, List.any_nil,
      h1, h2, h3, Bool.or_false, Bool.false_or]
    cases hex : name == "docker_run_container" <;>
      cases hA : (strPrefixOf "docker_stop" name) <;>
      cases hB : (strPrefixOf "docker_rm" name) <;>
      cases hC : (strPrefixOf "docker_prune" name) <;>
      cases hD : (strPrefixOf "k8s_delete" name) <;>
      cases hE : (strPrefixOf "local_k8s_delete" name) <;>
      cases hF : (strPrefixOf "remote_k8s_delete" name) <;>
      cases hG : (strPrefixOf "remote_k8s_promote" name) <;>
      cases hH : (strPrefixOf "remote_k8s_exec" name) <;>
      simp [hex, hA, hB, hC, hD, hE, hF, hG, hH]
  · cases h : is_dangerous name <;> simp [analyze_risk, h]
  · intro h
    simp [analyze_risk, h]

/-- Witness for C1 at the concrete non-dangerous name docker_list_containers. -/
theorem safety_classifier_matches_spec_witness :
    is_dangerous "docker_list_containers" = false
    ∧ analyze_risk "docker_list_containers" [] = ⟨false, "LOW", "", []⟩ := by
  refine ⟨by decide, ?_⟩
  exact (safety_classifier_matches_spec "docker_list_containers" []).2.2 (by decide)

/-! ## Semantic cache (devops_agent/semantic_cache.py)

Embeddings are lists of rationals; the cosine similarity of the source is
floating-point arithmetic, so the scoring function `sim` is kept as an
explicit parameter of the lookup: the claims under verification are about
the comparison of the best score against the thresholds, which the model
states for an arbitrary score function. -/

/-- Translation of a semantic-cache entry (the dict built in
`SemanticCache.add`).  Tool calls are carried by their string form, which is
all `add` inspects (`str(tc)`). -/
structure CacheEntry where
  query : String
  embedding : List ℚ
  output : String
  tool_calls : List String
  active_mcp : Option String
  timestamp : ℚ
deriving DecidableEq

/-- Eligibility filter of `SemanticCache.lookup` (semantic_cache.py line 53):
with an `active_mcp` scope, only entries recorded under the same scope are
scanned. -/
def cacheEligible (mcp : Option String) (e : CacheEntry) : Bool :=
  match mcp with
  | none => true
  | some m => e.active_mcp == some m

/-- The best-score scan loop of `SemanticCache.lookup` (lines 48-59):
fold over the entries keeping the highest score and its entry, starting
from `-1.0` and no match. -/
def cacheScan (sim : List ℚ → List ℚ → ℚ) (qemb : List ℚ) (mcp : Option String)
    (entries : List CacheEntry) : ℚ × Option CacheEntry :=
  entries.foldl
    (fun acc e =>
      if cacheEligible mcp e then
        let score := sim qemb e.embedding
        if score > acc.1 then (score, some e) else acc
      else acc)
    (-1, none)

/-- Translation of `SemanticCache.lookup` (semantic_cache.py lines 39-69).
The embedding request is modelled by its outcome `qemb` (the empty list when
`async_get_embeddings` returns nothing, matching `if not query_emb`).  A hit
returns the stored output and tool calls. -/
def cacheLookup (sim : List ℚ → List ℚ → ℚ) (threshold : ℚ)
    (entries : List CacheEntry) (qemb : List ℚ) (mcp : Option String) :
    Option (String × List String) :=
  if entries.isEmpty then none
  else if qemb.isEmpty then none
  else
    let scan := cacheScan sim qemb mcp entries
    if threshold ≤ scan.1 then
      match scan.2 with
      | some e => some (e.output, e.tool_calls)
      | none => none
    else none

/-- Translation of `SemanticCache.add` (semantic_cache.py lines 71-111) as a
state transformer on the in-memory entry list.  The returned Boolean is true
exactly when the code reaches the disk save (`self._save`).  `qemb` is the
outcome of the embedding request and `now` the timestamp. -/
def cacheAdd (entries : List CacheEntry) (query output : String)
    (tool_calls : List String) (mcp : Option String) (qemb : List ℚ) (now : ℚ) :
    List CacheEntry × Bool :=
  if hasSub (strLower output) "failed" || hasSub (strLower output) "error" then
    (entries, false)
  else if tool_calls.any (fun tc => hasSub tc "confirmation") then
    (entries, false)
  else if qemb.isEmpty then
    (entries, false)
  else if entries.any (fun e => e.query == query) then
    (entries, false)
  else
    let appended := entries ++ [⟨query, qemb, output, tool_calls, mcp, now⟩]
    let bounded := if 500 < appended.length then appended.drop 1 else appended
    (bounded, true)

/-! ## Intent router, semantic tier (devops_agent/router.py) -/

/-- Translation of a `SemanticIntent` (router.py lines 26-31). -/
structure SemanticIntent where
  text : String
  tool : String
  args : List (String × String)
  embedding : List ℚ
deriving DecidableEq

/-- The best-score scan loop of the semantic tier of `IntentRouter.route`
(router.py lines 192-199). -/
def intentScan (sim : List ℚ → List ℚ → ℚ) (qemb : List ℚ)
    (intents : List SemanticIntent) : ℚ × Option SemanticIntent :=
  intents.foldl
    (fun acc i =>
      let score := sim qemb i.embedding
      if score > acc.1 then (score, some i) else acc)
    (-1, none)

/-- Translation of the semantic tier of `IntentRouter.route` (router.py lines
187-207), reached when no regex template matched: scan the curated intents
and return the single tool call of the best intent when its score is
strictly above `0.82`, otherwise fall through (`None`). -/
def routeSemantic (sim : List ℚ → List ℚ → ℚ) (intents : List SemanticIntent)
    (qemb : List ℚ) : Option (List (String × List (String × String))) :=
  if intents.isEmpty then none
  else if qemb.isEmpty then none
  else
    let scan := intentScan sim qemb intents
    if (82 : ℚ)/100 < scan.1 then
      match scan.2 with
      | some i => some [(i.tool, i.args)]
      | none => none
    else none

/-- Best score over the eligible cache entries, as the claim words it: the
maximum of the scores of the scope-eligible entries, `-1` when none. -/
def bestEligibleScore (sim : List ℚ → List ℚ → ℚ) (qemb : List ℚ)
    (mcp : Option String) (entries : List CacheEntry) : ℚ :=
  ((entries.filter (cacheEligible mcp)).map (fun e => sim qemb e.embedding)).foldl max (-1)

/-- Best score over the curated intents. -/
def bestIntentScore (sim : List ℚ → List ℚ → ℚ) (qemb : List ℚ)
    (intents : List SemanticIntent) : ℚ :=
  (intents.map (fun i => sim qemb i.embedding)).foldl max (-1)

/-- The highest score tracked by the cache scan loop is the maximum of the
scores of the eligible entries (starting value `-1`). -/
theorem cacheScan_fst (sim : List ℚ → List ℚ → ℚ) (qemb : List ℚ)
    (mcp : Option String) (entries : List CacheEntry) :
    (cacheScan sim qemb mcp entries).1 = bestEligibleScore sim qemb mcp entries := by
  unfold cacheScan bestEligibleScore
  suffices h : ∀ (l : List CacheEntry) (acc : ℚ × Option CacheEntry),
      (l.foldl
        (fun acc e =>
          if cacheEligible mcp e then
            let score := sim qemb e.embedding
            if score > acc.1 then (score, some e) else acc
          else acc) acc).1
        = ((l.filter (cacheEligible mcp)).map (fun e => sim qemb e.embedding)).foldl max acc.1 by
    exact h entries (-1, none)
  intro l
  induction l with
  | nil => intro acc; rfl
  | cons e t ih =>
    intro acc
    by_cases he : cacheEligible mcp e
    · by_cases hs : sim qemb e.embedding > acc.1
      · simp only [List.foldl_cons, List.filter_cons, he, if_pos, hs, ite_true]
        rw [ih]
        have : max acc.1 (sim qemb e.embedding) = sim qemb e.embedding :=
          max_eq_right (le_of_lt hs)
        simp [this]
      · simp only [List.foldl_cons, List.filter_cons, he, hs, ite_true, ite_false]
        rw [ih]
        have : max acc.1 (sim qemb e.embedding) = acc.1 :=
          max_eq_left (not_lt.mp hs)
        simp [this]
    · simp only [List.foldl_cons, List.filter_cons, he]
      rw [ih]
      simp [he]

/-- Once the scan has recorded a best entry, it never forgets it. -/
theorem cacheScan_some_stays (sim : List ℚ → List ℚ → ℚ) (qemb : List ℚ)
    (mcp : Option String) :
    ∀ (l : List CacheEntry) (acc : ℚ × Option CacheEntry), acc.2.isSome →
      ((l.foldl
        (fun acc e =>
          if cacheEligible mcp e then
            let score := sim qemb e.embedding
            if score > acc.1 then (score, some e) else acc
          else acc) acc).2).isSome := by
  intro l
  induction l with
  | nil => intro acc h; exact h
  | cons e t ih =>
    intro acc h
    simp only [List.foldl_cons]
    by_cases he : cacheEligible mcp e
    · by_cases hs : sim qemb e.embedding > acc.1
      · exact ih _ (by simp [he, hs])
      · exact ih _ (by simp [he, hs, h])
    · exact ih _ (by simp [he, h])

/-- If the cache scan ends with no recorded entry, the tracked score is still
the starting value. -/
theorem cacheScan_none_fst (sim : List ℚ → List ℚ → ℚ) (qemb : List ℚ)
    (mcp : Option String) :
    ∀ (l : List CacheEntry) (a : ℚ),
      ((l.foldl
        (fun acc e =>
          if cacheEligible mcp e then
            let score := sim qemb e.embedding
            if score > acc.1 then (score, some e) else acc
          else acc) ((a, none) : ℚ × Option CacheEntry)).2) = none →
      ((l.foldl
        (fun acc e =>
          if cacheEligible mcp e then
            let score := sim qemb e.embedding
            if score > acc.1 then (score, some e) else acc
          else acc) ((a, none) : ℚ × Option CacheEntry)).1) = a := by
  intro l
  induction l with
  | nil => intro a _; rfl
  | cons e t ih =>
    intro a h
    simp only [List.foldl_cons] at h ⊢
    by_cases he : cacheEligible mcp e
    · by_cases hs : sim qemb e.embedding > a
      · exfalso
        have hsome := cacheScan_some_stays sim qemb mcp t
          ((sim qemb e.embedding, some e) : ℚ × Option CacheEntry) (by simp)
        simp only [he, hs, ite_true] at h
        rw [h] at hsome
        simp at hsome
      · simp only [he, hs, ite_true, ite_false] at h ⊢
        exact ih a h
    · simp only [he, ite_false] at h ⊢
      exact ih a h

/-- The highest score tracked by the intent scan loop is the maximum of the
intent scores (starting value `-1`). -/
theorem intentScan_fst (sim : List ℚ → List ℚ → ℚ) (qemb : List ℚ)
    (intents : List SemanticIntent) :
    (intentScan sim qemb intents).1 = bestIntentScore sim qemb intents := by
  unfold intentScan bestIntentScore
  suffices h : ∀ (l : List SemanticIntent) (acc : ℚ × Option SemanticIntent),
      (l.foldl
        (fun acc i =>
          let score := sim qemb i.embedding
          if score > acc.1 then (score, some i) else acc) acc).1
        = (l.map (fun i => sim qemb i.embedding)).foldl max acc.1 by
    exact h intents (-1, none)
  intro l
  induction l with
  | nil => intro acc; rfl
  | cons i t ih =>
    intro acc
    by_cases hs : sim qemb i.embedding > acc.1
    · simp only [List.foldl_cons, List.map_cons, hs, ite_true]
      rw [ih]
      have : max acc.1 (sim qemb i.embedding) = sim qemb i.embedding :=
        max_eq_right (le_of_lt hs)
      simp [this]
    · simp only [List.foldl_cons, List.map_cons, hs, ite_false]
      rw [ih]
      have : max acc.1 (sim qemb i.embedding) = acc.1 :=
        max_eq_left (not_lt.mp hs)
      simp [this]

/-- Once the intent scan has recorded a best intent, it never forgets it. -/
theorem intentScan_some_stays (sim : List ℚ → List ℚ → ℚ) (qemb : List ℚ) :
    ∀ (l : List SemanticIntent) (acc : ℚ × Option SemanticIntent), acc.2.isSome →
      ((l.foldl
        (fun acc i =>
          let score := sim qemb i.embedding
          if score > acc.1 then (score, some i) else acc) acc).2).isSome := by
  intro l
  induction l with
  | nil => intro acc h; exact h
  | cons i t ih =>
    intro acc h
    simp only [List.foldl_cons]
    by_cases hs : sim qemb i.embedding > acc.1
    · exact ih _ (by simp [hs])
    · exact ih _ (by simp [hs, h])

/-- If the intent scan ends with no recorded intent, the tracked score is
still the starting value. -/
theorem intentScan_none_fst (sim : List ℚ → List ℚ → ℚ) (qemb : List ℚ) :
    ∀ (l : List SemanticIntent) (a : ℚ),
      ((l.foldl
        (fun acc i =>
          let score := sim qemb i.embedding
          if score > acc.1 then (score, some i) else acc)
          ((a, none) : ℚ × Option SemanticIntent)).2) = none →
      ((l.foldl
        (fun acc i =>
          let score := sim qemb i.embedding
          if score > acc.1 then (score, some i) else acc)
          ((a, none) : ℚ × Option SemanticIntent)).1) = a := by
  intro l
  induction l with
  | nil => intro a _; rfl
  | cons i t ih =>
    intro a h
    simp only [List.foldl_cons] at h ⊢
    by_cases hs : sim qemb i.embedding > a
    · exfalso
      have hsome := intentScan_some_stays sim qemb t
        ((sim qemb i.embedding, some i) : ℚ × Option SemanticIntent) (by simp)
      simp only [hs, ite_true] at h
      rw [h] at hsome
      simp at hsome
    · simp only [hs, ite_false] at h ⊢
      exact ih a h

/-- Wrapper of `cacheScan_none_fst` phrased on `cacheScan`. -/
theorem cacheScan_none (sim : List ℚ → List ℚ → ℚ) (qemb : List ℚ)
    (mcp : Option String) (entries : List CacheEntry) :
    (cacheScan sim qemb mcp entries).2 = none → (cacheScan sim qemb mcp entries).1 = -1 := by
  unfold cacheScan
  exact cacheScan_none_fst sim qemb mcp entries (-1)

/-- Wrapper of `intentScan_none_fst` phrased on `intentScan`. -/
theorem intentScan_none (sim : List ℚ → List ℚ → ℚ) (qemb : List ℚ)
    (intents : List SemanticIntent) :
    (intentScan sim qemb intents).2 = none → (intentScan sim qemb intents).1 = -1 := by
  unfold intentScan
  exact intentScan_none_fst sim qemb intents (-1)

/-- C2: threshold boundaries are strictly respected.  With the cache and the
intent list non-empty and the query embedding available, the semantic cache
hits exactly when the best score over the scope-eligible entries is at least
`0.98` (so a score equal to `0.98` hits), and the semantic tier of the intent
router matches exactly when the best intent score is strictly greater than
`0.82` (so a score equal to `0.82` misses); any score below the respective
threshold is a miss by the same equivalences. -/
theorem similarity_thresholds_strict (sim : List ℚ → List ℚ → ℚ)
    (entries : List CacheEntry) (qemb : List ℚ) (mcp : Option String)
    (intents : List SemanticIntent)
    (hne : entries ≠ []) (hq : qemb ≠ []) (hni : intents ≠ []) :
    ((cacheLookup sim (98/100) entries qemb mcp).isSome = true
      ↔ (98 : ℚ)/100 ≤ bestEligibleScore sim qemb mcp entries)
    ∧ ((routeSemantic sim intents qemb).isSome = true
      ↔ (82 : ℚ)/100 < bestIntentScore sim qemb intents) := by
  constructor
  · have hfst := cacheScan_fst sim qemb mcp entries
    have hempty : entries.isEmpty = false := by
      cases entries with
      | nil => exact absurd rfl hne
      | cons e t => rfl
    have hqempty : qemb.isEmpty = false := by
      cases qemb with
      | nil => exact absurd rfl hq
      | cons x t => rfl
    unfold cacheLookup
    rw [hempty, hqempty]
    simp only [Bool.false_eq_true, if_false]
    by_cases hth : (98 : ℚ)/100 ≤ (cacheScan sim qemb mcp entries).1
    · rw [if_pos hth]
      cases hsnd : (cacheScan sim qemb mcp entries).2 with
      | some e =>
        simp only [Option.isSome_some, true_iff]
        rw [← hfst]; exact hth
      | none =>
        exfalso
        have h1 := cacheScan_none sim qemb mcp entries hsnd
        rw [h1] at hth
        norm_num at hth
    · rw [if_neg hth]
      simp only [Option.isSome_none, Bool.false_eq_true, false_iff]
      rw [← hfst]; exact hth
  · have hfst := intentScan_fst sim qemb intents
    have hempty : intents.isEmpty = false := by
      cases intents with
      | nil => exact absurd rfl hni
      | cons i t => rfl
    have hqempty : qemb.isEmpty = false := by
      cases qemb with
      | nil => exact absurd rfl hq
      | cons x t => rfl
    unfold routeSemantic
    rw [hempty, hqempty]
    simp only [Bool.false_eq_true, if_false]
    by_cases hth : (82 : ℚ)/100 < (intentScan sim qemb intents).1
    · rw [if_pos hth]
      cases hsnd : (intentScan sim qemb intents).2 with
      | some i =>
        simp only [Option.isSome_some, true_iff]
        rw [← hfst]; exact hth
      | none =>
        exfalso
        have h1 := intentScan_none sim qemb intents hsnd
        rw [h1] at hth
        norm_num at hth
    · rw [if_neg hth]
      simp only [Option.isSome_none, Bool.false_eq_true, false_iff]
      rw [← hfst]; exact hth

/-- Constant score function, used to exhibit boundary scores exactly. -/
def simConstQ (q : ℚ) : List ℚ → List ℚ → ℚ := fun _ _ => q

/-- Concrete cache entry for the threshold witness. -/
def witnessEntry : CacheEntry :=
  ⟨"list pods", [1], "pods listed", ["local_k8s_list_pods"], none, 0⟩

/-- Concrete curated intent for the threshold witness. -/
def witnessIntent : SemanticIntent :=
  ⟨"list pods", "local_k8s_list_pods", [], [1]⟩

/-- Witness for C2: a score exactly at `0.98` hits the cache, and a score
exactly at `0.82` misses the intent router. -/
theorem similarity_thresholds_strict_witness :
    (cacheLookup (simConstQ (98/100)) (98/100) [witnessEntry] [1] none).isSome = true
    ∧ (routeSemantic (simConstQ (82/100)) [witnessIntent] [1]).isSome = false := by
  have hbe : bestEligibleScore (simConstQ (98/100)) [1] none [witnessEntry] = 98/100 := by
    simp only [bestEligibleScore, witnessEntry, simConstQ, cacheEligible,
      List.filter_cons, List.filter_nil, List.map_cons, List.map_nil,
      List.foldl_cons, List.foldl_nil, if_pos]
    exact max_eq_right (by norm_num)
  have hbi : bestIntentScore (simConstQ (82/100)) [1] [witnessIntent] = 82/100 := by
    simp only [bestIntentScore, witnessIntent, simConstQ,
      List.map_cons, List.map_nil, List.foldl_cons, List.foldl_nil]
    exact max_eq_right (by norm_num)
  constructor
  · exact ((similarity_thresholds_strict (simConstQ (98/100)) [witnessEntry] [1] none
      [witnessIntent] (by simp) (by simp) (by simp)).1).mpr (by rw [hbe])
  · have h := (similarity_thresholds_strict (simConstQ (82/100)) [witnessEntry] [1] none
      [witnessIntent] (by simp) (by simp) (by simp)).2
    have hnot : ¬ ((82 : ℚ)/100 < bestIntentScore (simConstQ (82/100)) [1] [witnessIntent]) := by
      rw [hbi]
      exact lt_irrefl _
    cases hs : (routeSemantic (simConstQ (82/100)) [witnessIntent] [1]).isSome with
    | false => rfl
    | true => exact absurd (h.mp hs) hnot

/-- C3: failed and transient results are never cached.  If the output
contains "error" or "failed" case-insensitively, or the string form of some
tool call contains "confirmation", then `add` leaves the entry list unchanged
and never reaches the disk save. -/
theorem failed_results_never_cached (entries : List CacheEntry)
    (query output : String) (tool_calls : List String) (mcp : Option String)
    (qemb : List ℚ) (now : ℚ)
    (h : hasSub (strLower output) "error" = true
       ∨ hasSub (strLower output) "failed" = true
       ∨ tool_calls.any (fun tc => hasSub tc "confirmation") = true) :
    cacheAdd entries query output tool_calls mcp qemb now = (entries, false) := by
  rcases h with h | h | h
  · simp [cacheAdd, h]
  · simp [cacheAdd, h]
  · by_cases hf : (hasSub (strLower output) "failed" || hasSub (strLower output) "error") = true
    · simp [cacheAdd, hf]
    · simp only [cacheAdd, hf]
      simp only [Bool.false_eq_true, if_false]
      simp [h]

/-- Witness for C3 at a concrete failed output and a concrete confirmation
tool call. -/
theorem failed_results_never_cached_witness :
    cacheAdd [] "stop it" "Execution FAILED: no such container" [] none [1] 0 = ([], false)
    ∧ cacheAdd [] "stop it" "ok" ["confirmation_request: docker_stop_container"] none [1] 0
        = ([], false) := by
  constructor
  · exact failed_results_never_cached [] "stop it" "Execution FAILED: no such container"
      [] none [1] 0 (Or.inr (Or.inl (by decide)))
  · exact failed_results_never_cached [] "stop it" "ok"
      ["confirmation_request: docker_stop_container"] none [1] 0
      (Or.inr (Or.inr (by decide)))

/-- C8: the semantic cache is bounded with FIFO eviction.  Starting from a
list of at most 500 entries, a completed `add` leaves at most 500 entries,
and when an insert happens on a full list of exactly 500 entries the evicted
entry is the one at list position 0. -/
theorem cache_bounded_fifo (entries : List CacheEntry)
    (query output : String) (tool_calls : List String) (mcp : Option String)
    (qemb : List ℚ) (now : ℚ)
    (hlen : entries.length ≤ 500) :
    (cacheAdd entries query output tool_calls mcp qemb now).1.length ≤ 500
    ∧ ((cacheAdd entries query output tool_calls mcp qemb now).2 = true →
        entries.length = 500 →
        (cacheAdd entries query output tool_calls mcp qemb now).1
          = entries.drop 1 ++ [⟨query, qemb, output, tool_calls, mcp, now⟩]) := by
  unfold cacheAdd
  split
  · exact ⟨hlen, by intro h; simp at h⟩
  · split
    · exact ⟨hlen, by intro h; simp at h⟩
    · split
      · exact ⟨hlen, by intro h; simp at h⟩
      · split
        · exact ⟨hlen, by intro h; simp at h⟩
        · constructor
          · by_cases hfull : entries.length = 500
            · have hcond : 500 < (entries ++ [(⟨query, qemb, output, tool_calls, mcp, now⟩ : CacheEntry)]).length := by
                simp [hfull]
              simp only [hcond, if_pos]
              simp [hfull]
            · have hlt : entries.length < 500 := lt_of_le_of_ne hlen hfull
              have hcond : ¬ (500 < (entries ++ [(⟨query, qemb, output, tool_calls, mcp, now⟩ : CacheEntry)]).length) := by
                simp
                omega
              simp only [hcond, if_neg, if_false]
              simp
              omega
          · intro _ hfull
            have hcond : 500 < (entries ++ [(⟨query, qemb, output, tool_calls, mcp, now⟩ : CacheEntry)]).length := by
              simp [hfull]
            simp only [hcond, if_pos]
            rw [List.drop_append_of_le_length (by omega)]

/-- A full cache of 500 identical old entries, for the FIFO witness. -/
def entriesFull : List CacheEntry :=
  List.replicate 500 ⟨"old query", [1], "ok output", [], none, 0⟩

set_option maxRecDepth 10000 in
/-- Witness for C8: adding a fresh entry to a full 500-entry cache keeps the
bound and evicts the entry at position 0. -/
theorem cache_bounded_fifo_witness :
    (cacheAdd entriesFull "new query" "all good" [] none [1] 1).1.length ≤ 500
    ∧ (cacheAdd entriesFull "new query" "all good" [] none [1] 1).1
        = entriesFull.drop 1 ++ [⟨"new query", [1], "all good", [], none, 1⟩] := by
  have hlen : entriesFull.length = 500 := by
    unfold entriesFull
    exact List.length_replicate 500 _
  have h := cache_bounded_fifo entriesFull "new query" "all good" [] none [1] 1 (le_of_eq hlen)
  refine ⟨h.1, h.2 ?_ hlen⟩
  decide

/-! ## Smart MCP router (devops_agent/smart_router.py)

The router works on the lower-cased query.  The sticky session context
(`context_cache.get_last_mcp`) and the pulse status of the remote backend
(`pulse.get_status`) live in modules that are not part of the sources; they
are modelled as explicit inputs `lastMcp` and `remoteStatus`, following the
specification of the pulse snapshot (`status ∈ {healthy, degraded,
disconnected}`) and of the sticky backend. -/

/-- Python `q.split()`: split on whitespace runs, dropping empty pieces. -/
def splitWordsAux : List Char → List Char → List String
  | [], cur => if cur.isEmpty then [] else [⟨cur.reverse⟩]
  | c :: rest, cur =>
    if c.isWhitespace then
      if cur.isEmpty then splitWordsAux rest []
      else ⟨cur.reverse⟩ :: splitWordsAux rest []
    else splitWordsAux rest (c :: cur)

/-- Python `q.split()` on a string. -/
def splitWords (s : String) : List String :=
  splitWordsAux s.data []

/-- Keyword set of the docker MCP (smart_router.py lines 21-23). -/
def dockerKeywordList : List String :=
  ["docker", "container", "image", "volume", "network", "compose"]

/-- Keyword set of the local Kubernetes MCP (lines 24-26). -/
def localKeywordList : List String :=
  ["local", "minikube", "kind", "desktop", "localhost"]

/-- Keyword set of the remote Kubernetes MCP (lines 27-29). -/
def remoteKeywordList : List String :=
  ["remote", "cluster", "aws", "gcp", "azure", "cloud", "production", "staging"]

/-- Keyword set of the chat MCP (lines 30-32). -/
def chatKeywordList : List String :=
  ["hi", "hello", "hey", "help", "who are you", "what is this", "thanks",
   "thank you", "bye", "test", "explain", "why"]

/-- Shared Kubernetes terms (smart_router.py lines 36-39). -/
def k8sCommonList : List String :=
  ["pod", "node", "deployment", "service", "namespace", "replicaset",
   "configmap", "secret", "ingress", "pvc", "pv", "log", "logs", "describe",
   "ip", "port", "status", "phase", "labeled", "label", "selector",
   "filtering", "filter", "promote", "trace", "diff", "utilization", "compare"]

/-- Follow-up indicator words (smart_router.py lines 42-44). -/
def contextIndicatorList : List String :=
  ["it", "that", "this", "them", "those", "here", "there", "details", "more",
   "describe", "the"]

/-- Steps 0-1 of `SmartMCPRouter.route` (lines 54-69): sticky context via the
follow-up indicators, then one insertion per MCP whose keyword set hits the
lower-cased query.  `q` is already lower-cased; `lastMcp` is the session's
recorded last MCP (`None` without a session). -/
def keywordSelect (q : String) (lastMcp : Option String) : Finset String :=
  let base : Finset String :=
    match lastMcp with
    | some m =>
      if (splitWords q).any (fun w => contextIndicatorList.contains w) then {m} else ∅
    | none => ∅
  let s1 := if dockerKeywordList.any (fun k => hasSub q k) then insert "docker" base else base
  let s2 := if localKeywordList.any (fun k => hasSub q k) then insert "k8s_local" s1 else s1
  let s3 := if remoteKeywordList.any (fun k => hasSub q k) then insert "k8s_remote" s2 else s2
  if chatKeywordList.any (fun k => hasSub q k) then insert "chat" s3 else s3

/-- Step 2 of `SmartMCPRouter.route` (lines 71-99): on a common Kubernetes
term, an ambiguous query (no local/remote already selected) gets both
Kubernetes MCPs; an explicitly scoped one is left alone. -/
def k8sAdjust (q : String) (s : Finset String) : Finset String :=
  if k8sCommonList.any (fun k => hasSub q k) then
    if "k8s_local" ∉ s ∧ "k8s_remote" ∉ s then
      insert "k8s_local" (insert "k8s_remote" s)
    else s
  else s

/-- Step 3 of `SmartMCPRouter.route` (lines 101-110): fallback defaults when
nothing matched. -/
def fallbackSelect (q : String) (s : Finset String) : Finset String :=
  if s = ∅ then
    if hasSub q "status" || hasSub q "check" then
      {"docker", "k8s_local", "k8s_remote"}
    else if 5 < (splitWords q).length then
      {"docker", "k8s_local", "k8s_remote", "chat"}
    else {"chat"}
  else s

/-- Final step of `SmartMCPRouter.route` (lines 112-125), modelled from the
spec for the missing pulse module: drop `k8s_remote` when its pulse status is
"disconnected", unless the query says "remote" explicitly. -/
def pulseFilter (q : String) (remoteStatus : String) (s : Finset String) : Finset String :=
  if "k8s_remote" ∈ s ∧ hasSub q "remote" = false ∧ remoteStatus = "disconnected" then
    s.erase "k8s_remote"
  else s

/-- Translation of `SmartMCPRouter.route` (smart_router.py lines 46-127),
composed from its four stages on the lower-cased query.  The returned Python
list is modelled by the set of selected MCP identifiers. -/
def smartRoute (query : String) (lastMcp : Option String) (remoteStatus : String) : Finset String :=
  let q := strLower query
  pulseFilter q remoteStatus (fallbackSelect q (k8sAdjust q (keywordSelect q lastMcp)))

/-- A local keyword hit inserts `k8s_local` in the keyword pass. -/
theorem keywordSelect_local_mem (q : String) (lastMcp : Option String)
    (hl : localKeywordList.any (fun k => hasSub q k) = true) :
    "k8s_local" ∈ keywordSelect q lastMcp := by
  unfold keywordSelect
  simp only [hl, if_true]
  split_ifs <;> simp [Finset.mem_insert]

/-- A remote keyword hit inserts `k8s_remote` in the keyword pass. -/
theorem keywordSelect_remote_mem (q : String) (lastMcp : Option String)
    (hr : remoteKeywordList.any (fun k => hasSub q k) = true) :
    "k8s_remote" ∈ keywordSelect q lastMcp := by
  unfold keywordSelect
  simp only [hr, if_true]
  split_ifs <;> simp [Finset.mem_insert]

/-- Without a session context and without local keyword hits, the keyword
pass never selects `k8s_local`. -/
theorem keywordSelect_no_local (q : String)
    (hl : localKeywordList.any (fun k => hasSub q k) = false) :
    "k8s_local" ∉ keywordSelect q none := by
  unfold keywordSelect
  simp only [hl, Bool.false_eq_true, if_false]
  split_ifs <;> decide

/-- Without a session context and without remote keyword hits, the keyword
pass never selects `k8s_remote`. -/
theorem keywordSelect_no_remote (q : String)
    (hr : remoteKeywordList.any (fun k => hasSub q k) = false) :
    "k8s_remote" ∉ keywordSelect q none := by
  unfold keywordSelect
  simp only [hr, Bool.false_eq_true, if_false]
  split_ifs <;> decide

/-- The Kubernetes adjustment only ever adds backends. -/
theorem k8sAdjust_mem (q : String) (s : Finset String) (a : String) (h : a ∈ s) :
    a ∈ k8sAdjust q s := by
  unfold k8sAdjust
  split_ifs <;> simp [Finset.mem_insert, h]

/-- With a scoped selection already containing `k8s_local`, the Kubernetes
adjustment leaves the selection alone. -/
theorem k8sAdjust_of_local (q : String) (s : Finset String)
    (hl : "k8s_local" ∈ s) : k8sAdjust q s = s := by
  unfold k8sAdjust
  split_ifs with h1 h2
  · exact absurd hl h2.1
  · rfl
  · rfl

/-- With a scoped selection already containing `k8s_remote`, the Kubernetes
adjustment leaves the selection alone. -/
theorem k8sAdjust_of_remote (q : String) (s : Finset String)
    (hr : "k8s_remote" ∈ s) : k8sAdjust q s = s := by
  unfold k8sAdjust
  split_ifs with h1 h2
  · exact absurd hr h2.2
  · rfl
  · rfl

/-- An ambiguous Kubernetes query gets both Kubernetes backends added. -/
theorem k8sAdjust_both (q : String) (s : Finset String)
    (hk : k8sCommonList.any (fun k => hasSub q k) = true)
    (h1 : "k8s_local" ∉ s) (h2 : "k8s_remote" ∉ s) :
    "k8s_local" ∈ k8sAdjust q s ∧ "k8s_remote" ∈ k8sAdjust q s := by
  unfold k8sAdjust
  simp only [hk, if_true]
  rw [if_pos ⟨h1, h2⟩]
  simp [Finset.mem_insert]

/-- The fallback leaves a non-empty selection alone. -/
theorem fallbackSelect_of_mem (q : String) (s : Finset String) (a : String)
    (h : a ∈ s) : fallbackSelect q s = s := by
  unfold fallbackSelect
  exact if_neg (Finset.ne_empty_of_mem h)

/-- The pulse filter is the identity when the remote backend is not
disconnected. -/
theorem pulseFilter_of_connected (q st : String) (s : Finset String)
    (h : st ≠ "disconnected") : pulseFilter q st s = s := by
  unfold pulseFilter
  rw [if_neg]
  rintro ⟨-, -, h3⟩
  exact h h3

/-- The pulse filter is the identity when the query names the remote
backend. -/
theorem pulseFilter_of_explicit (q st : String) (s : Finset String)
    (h : hasSub q "remote" = true) : pulseFilter q st s = s := by
  unfold pulseFilter
  rw [if_neg]
  rintro ⟨-, h2, -⟩
  rw [h] at h2
  simp at h2

/-- The pulse filter preserves membership of anything but `k8s_remote`. -/
theorem pulseFilter_mem_of_ne (q st : String) (s : Finset String) (a : String)
    (h : a ∈ s) (hne : a ≠ "k8s_remote") : a ∈ pulseFilter q st s := by
  unfold pulseFilter
  split_ifs
  · exact Finset.mem_erase_of_ne_of_mem hne h
  · exact h

/-- The pulse filter never adds a backend. -/
theorem pulseFilter_not_mem (q st : String) (s : Finset String) (a : String)
    (h : a ∉ s) : a ∉ pulseFilter q st s := by
  unfold pulseFilter
  split_ifs
  · intro hmem
    exact h (Finset.mem_of_mem_erase hmem)
  · exact h

/-- A disconnected remote backend is dropped when the query does not name
it. -/
theorem pulseFilter_drops_remote (q st : String) (s : Finset String)
    (hs : "k8s_remote" ∈ s) (hq : hasSub q "remote" = false)
    (hd : st = "disconnected") : "k8s_remote" ∉ pulseFilter q st s := by
  unfold pulseFilter
  rw [if_pos ⟨hs, hq, hd⟩]
  exact Finset.not_mem_erase _ _

set_option maxRecDepth 10000 in
/-- C6 counterexample: the query "list local cluster pods" mentions "local"
and does not mention "remote", yet the smart router selects `k8s_remote` as
well (the remote-scope keyword "cluster" adds it), so mentioning exactly one
of "remote"/"local" does not select only that one. -/
theorem smart_router_scope_counterexample :
    hasSub (strLower "list local cluster pods") "local" = true
    ∧ hasSub (strLower "list local cluster pods") "remote" = false
    ∧ "k8s_local" ∈ smartRoute "list local cluster pods" none "healthy"
    ∧ "k8s_remote" ∈ smartRoute "list local cluster pods" none "healthy" := by
  refine ⟨by decide, by decide, by decide, by decide⟩

/-- C6 (amended): for a sessionless query containing a Kubernetes term,
(i) with no local-scope and no remote-scope keyword the candidate set
contains both Kubernetes backends when the remote pulse is not
disconnected, and drops exactly the remote one when it is disconnected;
(ii) with scope keywords from exactly the local keyword set, only
`k8s_local` of the two is selected; (iii) with scope keywords from exactly
the remote keyword set (pulse not disconnected), only `k8s_remote` of the
two is selected; and (iv) a query that names "remote" keeps `k8s_remote`
regardless of the pulse status. -/
theorem smart_router_k8s_scope (query : String) (remoteStatus : String)
    (hk : k8sCommonList.any (fun k => hasSub (strLower query) k) = true) :
    ((localKeywordList.any (fun k => hasSub (strLower query) k) = false →
      remoteKeywordList.any (fun k => hasSub (strLower query) k) = false →
      (remoteStatus ≠ "disconnected" →
        "k8s_local" ∈ smartRoute query none remoteStatus
        ∧ "k8s_remote" ∈ smartRoute query none remoteStatus)
      ∧ (remoteStatus = "disconnected" →
        "k8s_local" ∈ smartRoute query none remoteStatus
        ∧ "k8s_remote" ∉ smartRoute query none remoteStatus))
    ∧ (localKeywordList.any (fun k => hasSub (strLower query) k) = true →
       remoteKeywordList.any (fun k => hasSub (strLower query) k) = false →
        "k8s_local" ∈ smartRoute query none remoteStatus
        ∧ "k8s_remote" ∉ smartRoute query none remoteStatus)
    ∧ (remoteKeywordList.any (fun k => hasSub (strLower query) k) = true →
       localKeywordList.any (fun k => hasSub (strLower query) k) = false →
       remoteStatus ≠ "disconnected" →
        "k8s_remote" ∈ smartRoute query none remoteStatus
        ∧ "k8s_local" ∉ smartRoute query none remoteStatus)
    ∧ (hasSub (strLower query) "remote" = true →
        "k8s_remote" ∈ smartRoute query none remoteStatus)) := by
  have hq : smartRoute query none remoteStatus
      = pulseFilter (strLower query) remoteStatus
          (fallbackSelect (strLower query)
            (k8sAdjust (strLower query) (keywordSelect (strLower query) none))) := rfl
  refine ⟨?_, ?_, ?_, ?_⟩
  · intro hl hr
    have hnl := keywordSelect_no_local (strLower query) hl
    have hnr := keywordSelect_no_remote (strLower query) hr
    have hboth := k8sAdjust_both (strLower query) (keywordSelect (strLower query) none) hk hnl hnr
    have hfb := fallbackSelect_of_mem (strLower query)
      (k8sAdjust (strLower query) (keywordSelect (strLower query) none)) _ hboth.1
    constructor
    · intro hconn
      rw [hq, hfb, pulseFilter_of_connected _ _ _ hconn]
      exact hboth
    · intro hdisc
      rw [hq, hfb]
      constructor
      · exact pulseFilter_mem_of_ne _ _ _ _ hboth.1 (by decide)
      · have hqr : hasSub (strLower query) "remote" = false := by
          cases hval : hasSub (strLower query) "remote" with
          | false => rfl
          | true =>
            exfalso
            have : remoteKeywordList.any (fun k => hasSub (strLower query) k) = true := by
              simp only [remoteKeywordList, List.any_cons, hval, Bool.true_or]
            rw [this] at hr
            simp at hr
        exact pulseFilter_drops_remote _ _ _ hboth.2 hqr hdisc
  · intro hl hr
    have hmem := keywordSelect_local_mem (strLower query) none hl
    have hnr := keywordSelect_no_remote (strLower query) hr
    have hadj := k8sAdjust_of_local (strLower query) (keywordSelect (strLower query) none) hmem
    have hfb := fallbackSelect_of_mem (strLower query)
      (k8sAdjust (strLower query) (keywordSelect (strLower query) none)) _
      (hadj ▸ hmem)
    rw [hq, hfb, hadj]
    constructor
    · exact pulseFilter_mem_of_ne _ _ _ _ hmem (by decide)
    · exact pulseFilter_not_mem _ _ _ _ hnr
  · intro hr hl hconn
    have hmem := keywordSelect_remote_mem (strLower query) none hr
    have hnl := keywordSelect_no_local (strLower query) hl
    have hadj := k8sAdjust_of_remote (strLower query) (keywordSelect (strLower query) none) hmem
    have hfb := fallbackSelect_of_mem (strLower query)
      (k8sAdjust (strLower query) (keywordSelect (strLower query) none)) _
      (hadj ▸ hmem)
    rw [hq, hfb, hadj, pulseFilter_of_connected _ _ _ hconn]
    exact ⟨hmem, hnl⟩
  · intro hrem
    have hr : remoteKeywordList.any (fun k => hasSub (strLower query) k) = true := by
      simp only [remoteKeywordList, List.any_cons, hrem, Bool.true_or]
    have hmem := keywordSelect_remote_mem (strLower query) none hr
    have hadjmem := k8sAdjust_mem (strLower query) (keywordSelect (strLower query) none)
      "k8s_remote" hmem
    have hfb := fallbackSelect_of_mem (strLower query)
      (k8sAdjust (strLower query) (keywordSelect (strLower query) none)) _ hadjmem
    rw [hq, hfb, pulseFilter_of_explicit _ _ _ hrem]
    exact hadjmem

set_option maxRecDepth 10000 in
/-- Witness for the amended C6 at the ambiguous query "list pods" with a
healthy remote pulse: both Kubernetes backends are selected. -/
theorem smart_router_k8s_scope_witness :
    "k8s_local" ∈ smartRoute "list pods" none "healthy"
    ∧ "k8s_remote" ∈ smartRoute "list pods" none "healthy" :=
  ((smart_router_k8s_scope "list pods" "healthy" (by decide)).1
    (by decide) (by decide)).1 (by decide)

/-! ## LLM output parsing (devops_agent/agent_module.py)

The parse pipeline feeds the candidate text through the external
`json_repair` library.  Modelled from the spec: a permissive JSON reader; on
well-formed JSON it behaves as a standard JSON parser (objects, arrays,
strings, integers, booleans, null; string escapes limited to the
backslash-escaped forms used by the code base), and it yields nothing on
text it cannot read.  JSON values: -/

/-- JSON values as produced by the (spec-modelled) `json_repair.loads`. -/
inductive JVal where
  | jnull
  | jbool (b : Bool)
  | jnum (n : Int)
  | jstr (s : String)
  | jarr (items : List JVal)
  | jobj (fields : List (String × JVal))

/-- Skip leading whitespace. -/
def skipWs : List Char → List Char
  | [] => []
  | c :: r => if c.isWhitespace then skipWs r else c :: r

/-- Read a JSON string body after the opening quote; a backslash escapes the
next character. -/
def parseStringAux : List Char → List Char → Option (List Char × List Char)
  | [], _ => none
  | c :: rest, acc =>
    if c = '"' then some (acc.reverse, rest)
    else if c = '\\' then
      match rest with
      | [] => none
      | e :: rest2 => parseStringAux rest2 (e :: acc)
    else parseStringAux rest (c :: acc)

/-- Collect a run of decimal digits. -/
def takeDigits : List Char → List Char × List Char
  | [] => ([], [])
  | c :: r =>
    if c.isDigit then
      let p := takeDigits r
      (c :: p.1, p.2)
    else ([], c :: r)

/-- Digit run to a natural number. -/
def digitsToNat (ds : List Char) : Nat :=
  ds.foldl (fun a c => a * 10 + (c.toNat - 48)) 0

/-- Read a JSON integer (optional minus sign, digit run). -/
def parseNumber (cs : List Char) : Option (JVal × List Char) :=
  match cs with
  | '-' :: rest =>
    let p := takeDigits rest
    if p.1.isEmpty then none else some (.jnum (-(digitsToNat p.1 : Int)), p.2)
  | _ =>
    let p := takeDigits cs
    if p.1.isEmpty then none else some (.jnum (digitsToNat p.1), p.2)

mutual

/-- Read one JSON value (fuel-indexed recursive descent). -/
def parseVal : Nat → List Char → Option (JVal × List Char)
  | 0, _ => none
  | fuel+1, cs =>
    match skipWs cs with
    | [] => none
    | c :: rest =>
      if c = '[' then parseArrItems fuel rest
      else if c = '{' then parseObjItems fuel rest
      else if c = '"' then
        match parseStringAux rest [] with
        | some (sChars, r) => some (.jstr ⟨sChars⟩, r)
        | none => none
      else if c = 't' then
        if "rue".data.isPrefixOf rest then some (.jbool true, rest.drop 3) else none
      else if c = 'f' then
        if "alse".data.isPrefixOf rest then some (.jbool false, rest.drop 4) else none
      else if c = 'n' then
        if "ull".data.isPrefixOf rest then some (.jnull, rest.drop 3) else none
      else parseNumber (c :: rest)

/-- Read the items of a JSON array after the opening bracket. -/
def parseArrItems : Nat → List Char → Option (JVal × List Char)
  | 0, _ => none
  | fuel+1, cs =>
    match skipWs cs with
    | [] => none
    | c :: rest =>
      if c = ']' then some (.jarr [], rest)
      else
        match parseVal fuel (c :: rest) with
        | none => none
        | some (v, r) =>
          match parseArrRest fuel r with
          | some (vs, r2) => some (.jarr (v :: vs), r2)
          | none => none

/-- Read the remainder of a JSON array after a first item. -/
def parseArrRest : Nat → List Char → Option (List JVal × List Char)
  | 0, _ => none
  | fuel+1, cs =>
    match skipWs cs with
    | ']' :: rest => some ([], rest)
    | ',' :: rest =>
      match parseVal fuel rest with
      | none => none
      | some (v, r) =>
        match parseArrRest fuel r with
        | some (vs, r2) => some (v :: vs, r2)
        | none => none
    | _ => none

/-- Read the fields of a JSON object after the opening brace. -/
def parseObjItems : Nat → List Char → Option (JVal × List Char)
  | 0, _ => none
  | fuel+1, cs =>
    match skipWs cs with
    | [] => none
    | c :: rest =>
      if c = '}' then some (.jobj [], rest)
      else
        match parseField fuel (c :: rest) with
        | none => none
        | some (kv, r) =>
          match parseObjRest fuel r with
          | some (kvs, r2) => some (.jobj (kv :: kvs), r2)
          | none => none

/-- Read one key-value pair of a JSON object. -/
def parseField : Nat → List Char → Option ((String × JVal) × List Char)
  | 0, _ => none
  | fuel+1, cs =>
    match skipWs cs with
    | '"' :: rest =>
      match parseStringAux rest [] with
      | some (kChars, r) =>
        match skipWs r with
        | ':' :: r2 =>
          match parseVal fuel r2 with
          | some (v, r3) => some ((⟨kChars⟩, v), r3)
          | none => none
        | _ => none
      | none => none
    | _ => none

/-- Read the remainder of a JSON object after a first field. -/
def parseObjRest : Nat → List Char → Option (List (String × JVal) × List Char)
  | 0, _ => none
  | fuel+1, cs =>
    match skipWs cs with
    | '}' :: rest => some ([], rest)
    | ',' :: rest =>
      match parseField fuel rest with
      | none => none
      | some (kv, r) =>
        match parseObjRest fuel r with
        | some (kvs, r2) => some (kv :: kvs, r2)
        | none => none
    | _ => none

end

/-- The (spec-modelled) `json_repair.loads`: read one JSON value covering the
whole input (up to trailing whitespace). -/
def jparse (s : String) : Option JVal :=
  match parseVal (2 * s.data.length + 2) s.data with
  | some (v, rest) => if (skipWs rest).isEmpty then some v else none
  | none => none

/-- A normalized tool call as produced by `_normalize_single`
(agent_module.py lines 318-326): the dict `{"name": ..., "arguments": ...}`.
Both fields keep their JSON value (Python imposes no type here). -/
structure ToolCallD where
  name : JVal
  arguments : JVal

/-- Python dict lookup on a parsed object (last occurrence of a duplicated
key wins, as in a Python dict built from parsed JSON). -/
def jget (fields : List (String × JVal)) (k : String) : Option JVal :=
  fields.reverse.lookup k

/-- Python truthiness of a JSON value. -/
def jtruthy : JVal → Bool
  | .jnull => false
  | .jbool b => b
  | .jnum n => n != 0
  | .jstr s => ¬ s.isEmpty
  | .jarr l => ¬ l.isEmpty
  | .jobj l => ¬ l.isEmpty

/-- Lookup that also drops falsy values: models one operand of a Python
`a or b or ...` chain over `dict.get` results. -/
def jgetTruthy (fields : List (String × JVal)) (k : String) : Option JVal :=
  match jget fields k with
  | some v => if jtruthy v then some v else none
  | none => none

/-- Python `"name" in item or "tool_name" in item or "tool" in item`. -/
def hasNameKey (fields : List (String × JVal)) : Bool :=
  fields.any (fun p => p.1 == "name" || p.1 == "tool_name" || p.1 == "tool")

/-- Translation of `_normalize_single` (agent_module.py lines 318-326):
`name | tool_name | tool` for the name and
`arguments | parameters | input | {}` for the arguments, with Python `or`
falling through falsy values and the last operand returned as-is. -/
def normalizeSingle (fields : List (String × JVal)) : ToolCallD :=
  let name :=
    match jgetTruthy fields "name" with
    | some v => v
    | none =>
      match jgetTruthy fields "tool_name" with
      | some v => v
      | none => (jget fields "tool").getD .jnull
  let args :=
    match jgetTruthy fields "arguments" with
    | some v => v
    | none =>
      match jgetTruthy fields "parameters" with
      | some v => v
      | none => (jgetTruthy fields "input").getD (.jobj [])
  ⟨name, args⟩

/-- Translation of `_normalize_tool_list` (agent_module.py lines 328-347):
the `[name, args]` and `[name]` shorthands, then the per-item loop coercing
bare strings and normalizing dicts that carry a name key. -/
def normalizeToolList (data : List JVal) : List ToolCallD :=
  match data with
  | [.jstr s, .jobj o] => [⟨.jstr s, .jobj o⟩]
  | [.jstr s] => [⟨.jstr s, .jobj []⟩]
  | _ =>
    data.filterMap (fun item =>
      match item with
      | .jstr s => some ⟨.jstr s, .jobj []⟩
      | .jobj o => if hasNameKey o then some (normalizeSingle o) else none
      | _ => none)

/-- Python `s.strip()`. -/
def strTrim (s : String) : String :=
  ⟨((s.data.dropWhile Char.isWhitespace).reverse.dropWhile Char.isWhitespace).reverse⟩

/-- Split a string at every occurrence of a separator character. -/
def splitOnCharAux (sep : Char) : List Char → List Char → List String
  | [], cur => [⟨cur.reverse⟩]
  | c :: rest, cur =>
    if c = sep then ⟨cur.reverse⟩ :: splitOnCharAux sep rest []
    else splitOnCharAux sep rest (c :: cur)

/-- Python `s.splitlines()` for newline-separated text (a trailing final
newline yields no trailing empty line). -/
def splitLines (s : String) : List String :=
  let ps := splitOnCharAux '\n' s.data []
  if ps.getLast? = some "" then ps.dropLast else ps

/-- Join strings with a separator (Python `sep.join(lines)`). -/
def joinWith (sep : String) : List String → String
  | [] => ""
  | [x] => x
  | x :: xs => x ++ sep ++ joinWith sep xs

/-- The fenced-code-block stripping step of `_validate_and_parse`
(agent_module.py lines 256-259). -/
def stripFence (cleaned : String) : String :=
  if strPrefixOf "```" cleaned then
    let lines := splitLines cleaned
    if 3 ≤ lines.length then joinWith "\n" ((lines.drop 1).dropLast) else cleaned
  else cleaned

/-- Index of the first occurrence of a character. -/
def findCharIdx (c : Char) : List Char → Option Nat
  | [] => none
  | x :: r => if x = c then some 0 else (findCharIdx c r).map (· + 1)

/-- The bracket-counting loop of `_validate_and_parse` (lines 268-284): from
the text starting at an opening bracket, the slice up to the balancing
closer; `none` when the count never returns to zero (the Python loop then
ends without `break`, leaving the text unchanged). -/
def balancedSliceAux (opn cls : Char) : List Char → Int → List Char → Option (List Char)
  | [], _, _ => none
  | c :: rest, depth, acc =>
    let d := if c = opn then depth + 1 else if c = cls then depth - 1 else depth
    if d = 0 then some ((c :: acc).reverse)
    else balancedSliceAux opn cls rest d (c :: acc)

/-- Balanced-slice extraction from the first character. -/
def balancedSlice (opn cls : Char) (l : List Char) : Option (List Char) :=
  balancedSliceAux opn cls l 0 []

/-- The one-character string of an opening brace. -/
def lbraceStr : String := ⟨['{']⟩

/-- Translation of `_validate_and_parse` (agent_module.py lines 245-316):
trim, strip a fenced code block, extract an embedded array or object from
prose by bracket counting, read the JSON, keep dict items carrying a name
key, and normalize.  Returns `none` whenever the Python function returns
`None`. -/
def validateAndParse (output : String) : Option (List ToolCallD) :=
  if output = "" then none
  else
    let cleaned := stripFence (strTrim output)
    let extracted : Option String :=
      if strPrefixOf "[" cleaned || strPrefixOf lbraceStr cleaned then some cleaned
      else
        match findCharIdx '[' cleaned.data with
        | some i =>
          match balancedSlice '[' ']' (cleaned.data.drop i) with
          | some sl => some ⟨sl⟩
          | none => some cleaned
        | none =>
          match findCharIdx '{' cleaned.data with
          | some i =>
            match balancedSlice '{' '}' (cleaned.data.drop i) with
            | some sl => some ("[" ++ (⟨sl⟩ : String) ++ "]")
            | none => some cleaned
          | none => none
    match extracted with
    | none => none
    | some cl =>
      match jparse cl with
      | some (.jarr items) =>
        if 0 < items.length then
          let namedDicts := items.filter (fun item =>
            match item with
            | .jobj o => hasNameKey o
            | _ => false)
          if namedDicts.isEmpty then none
          else some (normalizeToolList namedDicts)
        else none
      | some (.jobj o) =>
        if hasNameKey o then some [normalizeSingle o] else none
      | _ => none

/-- Best-effort rendering of a JSON value inside a Python f-string (used
only to build error messages). -/
def jshowPy : JVal → String
  | .jnull => "None"
  | .jbool true => "True"
  | .jbool false => "False"
  | .jnum n => toString n
  | .jstr s => s
  | .jarr _ => "<list>"
  | .jobj _ => "<dict>"

/-- A tool schema as read by `_validate_semantics`: the name and the
`parameters.required` list of the descriptor. -/
structure ToolSchema where
  name : String
  required : List String

/-- The schema map `{t['name']: t}` of `_validate_semantics` (line 355):
later duplicates win, as in a Python dict comprehension. -/
def schemaFind (schema : List ToolSchema) (n : String) : Option ToolSchema :=
  schema.reverse.find? (fun t => t.name == n)

/-- Python `req not in args` on the arguments value: key test on a dict,
substring test on a string, membership on a list (non-container arguments
raise in Python; the enclosing `try` of `forward` turns that into a failed
attempt, modelled as a missing key). -/
def argHasKey (args : JVal) (req : String) : Bool :=
  match args with
  | .jobj o => o.any (fun p => p.1 == req)
  | .jstr s => hasSub s req
  | .jarr l =>
    l.any (fun v =>
      match v with
      | .jstr t => t == req
      | _ => false)
  | _ => false

/-- The required-arguments check of `_validate_semantics` (lines 370-374). -/
def missingRequired (required : List String) (args : JVal) : Option String :=
  required.find? (fun req => ¬ argHasKey args req)

/-- Translation of `_validate_semantics` (agent_module.py lines 349-376):
every call's name must name a schema and carry all required arguments;
returns `(true, "")` or `(false, message)` for the first violation. -/
def validateSemantics (toolCalls : List ToolCallD) (schema : List ToolSchema) : Bool × String :=
  match toolCalls with
  | [] => (true, "")
  | call :: rest =>
    let nameStr : Option String :=
      match call.name with
      | .jstr s => some s
      | _ => none
    match nameStr.bind (fun s => schemaFind schema s) with
    | none =>
      (false, "Tool \x27" ++ jshowPy call.name
        ++ "\x27 does not exist. Please check \x27available_tools\x27 for the correct name.")
    | some sch =>
      match missingRequired sch.required call.arguments with
      | some req =>
        (false, "Tool \x27" ++ jshowPy call.name
          ++ "\x27 is missing required argument: \x27" ++ req ++ "\x27.")
      | none => validateSemantics rest schema

/-- The fixed parse-failure message of Stage B (agent_module.py line 237). -/
def invalidJsonMsg : String := "Output was not a valid JSON list of tool calls"

/-- The system hint appended to the query on a Stage B retry
(agent_module.py line 205). -/
def hintQuery (query err : String) : String :=
  query ++ "\n\n[SYSTEM: Your previous response was invalid. Error: " ++ err
    ++ ". Please output ONLY a valid JSON list.]"

/-- A DSPy prediction as Stage B returns it: the raw `tool_calls` text and
the `_validated_calls` marker (`none` when validation never succeeded). -/
structure Prediction where
  tool_calls : String
  validated_calls : Option (List ToolCallD)

/-- The query actually sent on an attempt (agent_module.py lines 203-205):
the hint is appended only when there is a recorded error and this is a
retry (`if last_error and attempt > 0`). -/
def nextQuery (query : String) (lastError : Option String) (attempt : Nat) : String :=
  match lastError, attempt with
  | some e, _+1 => hintQuery query e
  | _, _ => query

/-- The Stage B retry loop of `DevOpsAgent.forward` (agent_module.py lines
199-243).  The LLM is modelled as a function from the attempt index and the
(possibly hinted) query to its raw text output; the result carries the
returned prediction and the list of queries sent to the LLM, one per
attempt.  The first numeric argument is the number of loop iterations
left (`max_retries + 1` at the top call). -/
def stageBGo (llm : Nat → String → String) (schema : List ToolSchema) (query : String) :
    Nat → Nat → Option String → Prediction × List String
  | 0, _, _ => (⟨"", none⟩, [])
  | n+1, attempt, lastError =>
    let mq := nextQuery query lastError attempt
    let raw := llm attempt mq
    match validateAndParse raw with
    | some calls =>
      match validateSemantics calls schema with
      | (true, _) => (⟨raw, some calls⟩, [mq])
      | (false, err) =>
        match n with
        | 0 => (⟨raw, none⟩, [mq])
        | m+1 =>
          let r := stageBGo llm schema query (m+1) (attempt+1) (some ("Semantic Error: " ++ err))
          (r.1, mq :: r.2)
    | none =>
      match n with
      | 0 => (⟨raw, none⟩, [mq])
      | m+1 =>
        let r := stageBGo llm schema query (m+1) (attempt+1) (some invalidJsonMsg)
        (r.1, mq :: r.2)

/-- Stage B of `DevOpsAgent.forward`: `for attempt in range(max_retries + 1)`
starting with no recorded error. -/
def stageB (maxRetries : Nat) (llm : Nat → String → String)
    (schema : List ToolSchema) (query : String) : Prediction × List String :=
  stageBGo llm schema query (maxRetries + 1) 0 none

/-- A character absent from a string is not its first character. -/
theorem prefix_single_false (ch : Char) (s : String)
    (h : s.data.contains ch = false) : strPrefixOf ⟨[ch]⟩ s = false := by
  unfold strPrefixOf
  cases hd : s.data with
  | nil => rfl
  | cons a t =>
    rw [hd] at h
    simp only [List.contains_cons, Bool.or_eq_false_iff] at h
    simp [List.isPrefixOf, h.1]

/-- A character absent from a list is never found. -/
theorem findCharIdx_none (c : Char) (l : List Char)
    (h : l.contains c = false) : findCharIdx c l = none := by
  induction l with
  | nil => rfl
  | cons a t ih =>
    simp only [List.contains_cons, Bool.or_eq_false_iff] at h
    unfold findCharIdx
    have : ¬ (a = c) := by
      intro heq
      rw [heq] at h
      simp at h
    rw [if_neg this, ih h.2]
    rfl

/-- C4 (amended): the parse pipeline accepts a bare JSON array of call
objects, a fenced code block, prose containing an embedded array, and a
single JSON object; it rejects the empty string and bracket-free non-JSON
garbage; and (contrary to the original claim) it rejects the `[name, args]`
and `[name]` shorthands, because `_validate_and_parse` keeps only dict items
before `_normalize_tool_list` ever sees the list. -/
theorem parse_pipeline_formats :
    validateAndParse "" = none
    ∧ validateAndParse "[\x7b\"name\": \"docker_list_containers\", \"arguments\": \x7b\x7d\x7d]"
        = some [⟨.jstr "docker_list_containers", .jobj []⟩]
    ∧ validateAndParse "```json\n[\x7b\"name\": \"chat\"\x7d]\n```"
        = some [⟨.jstr "chat", .jobj []⟩]
    ∧ validateAndParse "Sure! Here is the call: [\x7b\"tool\": \"local_k8s_list_pods\", \"parameters\": \x7b\"namespace\": \"default\"\x7d\x7d] hope this helps"
        = some [⟨.jstr "local_k8s_list_pods", .jobj [("namespace", .jstr "default")]⟩]
    ∧ validateAndParse "\x7b\"name\": \"docker_list_images\"\x7d"
        = some [⟨.jstr "docker_list_images", .jobj []⟩]
    ∧ (∀ s : String, s ≠ "" →
        (stripFence (strTrim s)).data.contains '[' = false →
        (stripFence (strTrim s)).data.contains '{' = false →
        validateAndParse s = none)
    ∧ validateAndParse "[\"some_tool\", \x7b\x7d]" = none
    ∧ validateAndParse "[\"some_tool\"]" = none := by
  refine ⟨rfl, rfl, rfl, rfl, rfl, ?_, rfl, rfl⟩
  intro s hne h1 h2
  have hp1 : strPrefixOf "[" (stripFence (strTrim s)) = false :=
    prefix_single_false '[' _ h1
  have hp2 : strPrefixOf lbraceStr (stripFence (strTrim s)) = false :=
    prefix_single_false '{' _ h2
  have hf1 : findCharIdx '[' (stripFence (strTrim s)).data = none :=
    findCharIdx_none '[' _ h1
  have hf2 : findCharIdx '{' (stripFence (strTrim s)).data = none :=
    findCharIdx_none '{' _ h2
  simp [validateAndParse, hne, hp1, hp2, hf1, hf2]

/-- Witness for C4 at a concrete bracket-free garbage input. -/
theorem parse_pipeline_formats_witness :
    validateAndParse "hello world" = none :=
  parse_pipeline_formats.2.2.2.2.2.1 "hello world" (by decide) (by rfl) (by rfl)

/-- C4 counterexample: the `[name, args]` and `[name]` shorthands are
rejected by the parse pipeline (it returns no call list), because the
dict-only filter in `_validate_and_parse` runs before the shorthand handling
of `_normalize_tool_list`. -/
theorem parse_shorthand_counterexample :
    validateAndParse "[\"local_tool\", \x7b\x7d]" = none
    ∧ validateAndParse "[\"local_tool\"]" = none :=
  ⟨rfl, rfl⟩

/-- Stage B makes at most as many attempts as it has loop iterations. -/
theorem stageBGo_len (llm : Nat → String → String) (schema : List ToolSchema)
    (query : String) :
    ∀ (n attempt : Nat) (le : Option String),
      ((stageBGo llm schema query n attempt le).2).length ≤ n := by
  intro n
  induction n with
  | zero => intro attempt le; simp [stageBGo]
  | succ m ih =>
    intro attempt le
    unfold stageBGo
    cases hv : validateAndParse (llm attempt (nextQuery query le attempt)) with
    | none =>
      simp only [hv]
      cases m with
      | zero => simp
      | succ k => simpa using Nat.succ_le_succ (ih (attempt+1) (some invalidJsonMsg))
    | some calls =>
      simp only [hv]
      rcases hvs : validateSemantics calls schema with ⟨b, err⟩
      cases b with
      | true => simp [hvs]
      | false =>
        simp only [hvs]
        cases m with
        | zero => simp
        | succ k => simpa using Nat.succ_le_succ (ih (attempt+1) (some ("Semantic Error: " ++ err)))

/-- When every LLM output fails to parse, every retry carries the
parse-failure hint and the final prediction has no validation marker. -/
theorem stageBGo_allfail (llm : Nat → String → String) (schema : List ToolSchema)
    (query : String)
    (hfail : ∀ a q, validateAndParse (llm a q) = none) :
    ∀ (n attempt : Nat) (e : String),
      (stageBGo llm schema query (n+1) (attempt+1) (some e)).1.validated_calls = none
      ∧ (stageBGo llm schema query (n+1) (attempt+1) (some e)).2
          = hintQuery query e :: List.replicate n (hintQuery query invalidJsonMsg) := by
  intro n
  induction n with
  | zero =>
    intro attempt e
    simp [stageBGo, nextQuery, hfail]
  | succ m ih =>
    intro attempt e
    have h1 := (ih (attempt+1) invalidJsonMsg).1
    have h2 := (ih (attempt+1) invalidJsonMsg).2
    simp [stageBGo, nextQuery, hfail, h1, h2, List.replicate_succ]

/-- C5 (amended): Stage B makes up to `max_retries + 1` attempts (default
3: one initial attempt plus `max_retries` retries).  When every attempt
fails validation: the first attempt is sent the unmodified query, each of
the `max_retries` retries is sent the query with the prior validation error
appended as a system hint, and the final prediction is still returned and
carries no `_validated_calls` marker.  For any LLM behaviour the number of
attempts is at most `max_retries + 1`. -/
theorem stage_b_retries (maxRetries : Nat) (llm : Nat → String → String)
    (schema : List ToolSchema) (query : String)
    (hfail : ∀ a q, validateAndParse (llm a q) = none) :
    (stageB maxRetries llm schema query).1.validated_calls = none
    ∧ (stageB maxRetries llm schema query).2
        = query :: List.replicate maxRetries (hintQuery query invalidJsonMsg)
    ∧ ∀ (llm2 : Nat → String → String),
        ((stageB maxRetries llm2 schema query).2).length ≤ maxRetries + 1 := by
  refine ⟨?_, ?_, fun llm2 => stageBGo_len llm2 schema query (maxRetries+1) 0 none⟩
  all_goals
    cases maxRetries with
    | zero => simp [stageB, stageBGo, nextQuery, hfail]
    | succ m =>
      have h1 := (stageBGo_allfail llm schema query hfail m 0 invalidJsonMsg).1
      have h2 := (stageBGo_allfail llm schema query hfail m 0 invalidJsonMsg).2
      simp [stageB, stageBGo, nextQuery, hfail, h1, h2, List.replicate_succ]

/-- C5 counterexample: with the default `max_retries = 2`, Stage B issues
three LLM attempts (not two) when every output fails validation. -/
theorem stage_b_retry_count_counterexample :
    ((stageB 2 (fun _ _ => "no json here") [] "list pods").2).length = 3
    ∧ ¬ (((stageB 2 (fun _ _ => "no json here") [] "list pods").2).length ≤ 2) := by
  constructor
  · rfl
  · intro h
    have h3 : ((stageB 2 (fun _ _ => "no json here") [] "list pods").2).length = 3 := rfl
    rw [h3] at h
    omega

/-- Witness for C5 at a concrete always-failing LLM with one retry. -/
theorem stage_b_retries_witness :
    (stageB 1 (fun _ _ => "no json here") [] "restart web").1.validated_calls = none
    ∧ (stageB 1 (fun _ _ => "no json here") [] "restart web").2
        = ["restart web", hintQuery "restart web" invalidJsonMsg] := by
  have h := stage_b_retries 1 (fun _ _ => "no json here") [] "restart web"
    (fun a q => rfl)
  refine ⟨h.1, ?_⟩
  rw [h.2.1]
  rfl

/-! ## Backend client (devops_agent/mcp/client.py)

The HTTP transport (httpx) is external: a call's outcome is modelled as
either a response with a status code and a JSON body (JSON-RPC responses
are JSON objects), a connection error, a timeout, or another exception
carrying a message.  `call_tool_async` is then a total function of the tool
name and that outcome. -/

/-- Docker MCP endpoint (settings defaults: 127.0.0.1:8080). -/
def MCP_URL : String := "http://127.0.0.1:8080"

/-- Local Kubernetes MCP endpoint (settings defaults: 127.0.0.1:8081). -/
def K8S_MCP_URL : String := "http://127.0.0.1:8081"

/-- Remote Kubernetes MCP endpoint (settings defaults: 127.0.0.1:8082). -/
def REMOTE_K8S_MCP_URL : String := "http://127.0.0.1:8082"

/-- URL selection of `call_tool_async` (mcp/client.py lines 50-57): prefix
dispatch on the tool name; `chat` and everything else go to the docker
endpoint. -/
def selectUrl (toolName : String) : String :=
  if strPrefixOf "local_k8s_" toolName || strPrefixOf "k8s_" toolName then K8S_MCP_URL
  else if strPrefixOf "remote_k8s_" toolName then REMOTE_K8S_MCP_URL
  else MCP_URL

/-- Outcome of the HTTP POST issued by `call_tool_async`, as seen by the
calling code. -/
inductive HttpOutcome where
  | success (status : Nat) (body : List (String × JVal))
  | connectError
  | timeout
  | otherError (msg : String)

/-- Modelled from the spec: the message of the `httpx.HTTPStatusError`
raised by `raise_for_status` on a non-2xx response (an httpx-internal
string; only its existence matters to the claims). -/
def statusErrorMsg (status : Nat) (url : String) : String :=
  if status < 500 then "Client error response for url " ++ url
  else "Server error response for url " ++ url

/-- Key-presence check on a parsed JSON object (Python `k in result`). -/
def jHasKeyObj (fields : List (String × JVal)) (k : String) : Bool :=
  fields.any (fun p => p.1 == k)

/-- Key-presence check on a JSON value (false off objects). -/
def resultHasKey (v : JVal) (k : String) : Bool :=
  match v with
  | .jobj fields => jHasKeyObj fields k
  | _ => false

/-- Translation of `call_tool_async` (mcp/client.py lines 48-89).  A 2xx
response with an `error` field yields `{success: false, error,
original_response: payload}`; a 2xx response without one yields its
`result` field (or a no-result failure); a non-2xx response raises
`HTTPStatusError`, caught by the generic handler as `Async error: ...`;
connection errors and timeouts get their own messages.  Every branch
returns a value: no exception escapes. -/
def callToolAsync (toolName : String) (outcome : HttpOutcome) : JVal :=
  let url := selectUrl toolName
  match outcome with
  | .success status body =>
    if 200 ≤ status ∧ status < 300 then
      if jHasKeyObj body "error" then
        .jobj [("success", .jbool false),
               ("error", (jget body "error").getD .jnull),
               ("original_response", .jobj body)]
      else
        (jget body "result").getD
          (.jobj [("success", .jbool false), ("error", .jstr "No result returned")])
    else
      .jobj [("success", .jbool false),
             ("error", .jstr ("Async error: " ++ statusErrorMsg status url))]
  | .connectError =>
    .jobj [("success", .jbool false),
           ("error", .jstr ("Cannot connect to MCP server at " ++ url ++ ". Is it running?"))]
  | .timeout =>
    .jobj [("success", .jbool false), ("error", .jstr "Request timed out")]
  | .otherError m =>
    .jobj [("success", .jbool false), ("error", .jstr ("Async error: " ++ m))]

/-- C7 counterexample: neither the error-field case nor the non-2xx case
produces a `raw_error` field; the error-field case stores the payload under
`original_response` and the non-2xx case drops the payload entirely. -/
theorem backend_error_shape_counterexample :
    resultHasKey (callToolAsync "docker_list_containers"
      (.success 200 [("error", .jstr "boom")])) "raw_error" = false
    ∧ resultHasKey (callToolAsync "docker_list_containers"
      (.success 200 [("error", .jstr "boom")])) "original_response" = true
    ∧ resultHasKey (callToolAsync "docker_list_containers"
      (.success 500 [("error", .jstr "boom")])) "raw_error" = false :=
  ⟨rfl, rfl, rfl⟩

/-- C7 (amended): a 2xx backend response carrying an `error` field yields
`{success: false, error, original_response: full server payload}`; a
non-2xx response yields `{success: false, error: "Async error: ..."}`
without the payload; connection-refused and timeout failures produce
distinct fixed error messages; and in every failure case `call_tool_async`
returns a `success: false` value rather than letting an exception
escape. -/
theorem backend_client_error_results (toolName : String) (status : Nat)
    (body : List (String × JVal)) :
    (200 ≤ status ∧ status < 300 → jHasKeyObj body "error" = true →
      callToolAsync toolName (.success status body)
        = .jobj [("success", .jbool false),
                 ("error", (jget body "error").getD .jnull),
                 ("original_response", .jobj body)])
    ∧ (¬ (200 ≤ status ∧ status < 300) →
      callToolAsync toolName (.success status body)
        = .jobj [("success", .jbool false),
                 ("error", .jstr ("Async error: " ++ statusErrorMsg status (selectUrl toolName)))])
    ∧ callToolAsync toolName .connectError
        = .jobj [("success", .jbool false),
                 ("error", .jstr ("Cannot connect to MCP server at " ++ selectUrl toolName
                   ++ ". Is it running?"))]
    ∧ callToolAsync toolName .timeout
        = .jobj [("success", .jbool false), ("error", .jstr "Request timed out")]
    ∧ (∀ m, callToolAsync toolName (.otherError m)
        = .jobj [("success", .jbool false), ("error", .jstr ("Async error: " ++ m))])
    ∧ ("Cannot connect to MCP server at " ++ selectUrl toolName ++ ". Is it running?")
        ≠ "Request timed out" := by
  refine ⟨?_, ?_, rfl, rfl, fun m => rfl, ?_⟩
  · intro h2xx herr
    simp [callToolAsync, h2xx, herr]
  · intro hno
    simp [callToolAsync, hno]
  · intro h
    have hl := congrArg String.length h
    rw [String.length_append, String.length_append] at hl
    have c1 : ("Cannot connect to MCP server at " : String).length = 32 := rfl
    have c2 : (". Is it running?" : String).length = 16 := rfl
    have c3 : ("Request timed out" : String).length = 17 := rfl
    rw [c1, c2, c3] at hl
    omega

/-- Witness for C7 at a concrete error-field response and a concrete 503. -/
theorem backend_client_error_results_witness :
    callToolAsync "docker_list_containers" (.success 200 [("error", .jstr "boom")])
      = .jobj [("success", .jbool false), ("error", .jstr "boom"),
               ("original_response", .jobj [("error", .jstr "boom")])]
    ∧ callToolAsync "docker_list_containers" (.success 503 [])
      = .jobj [("success", .jbool false),
               ("error", .jstr ("Async error: " ++ statusErrorMsg 503 MCP_URL))] := by
  constructor
  · exact (backend_client_error_results "docker_list_containers" 200
      [("error", .jstr "boom")]).1 (by omega) rfl
  · exact (backend_client_error_results "docker_list_containers" 503 []).2.1 (by omega)

/-! ## FAISS tool index (devops_agent/rag/faiss_index.py)

The faiss library is external; `IndexFlatIP` is modelled by the list of
stored vectors (its `ntotal` is the list length; `index.add` appends).  The
L2 normalization and the float scoring are folded into the abstract score
parameter used by search. -/

/-- In-memory state of `FaissToolIndex`: the flat index vectors and the
metadata maps (`tools`: name -> (idx, truncated description);
`idx_to_tool`: idx -> name, the Python dict key `str(idx)` modelled by the
integer itself, as `Nat.repr` is injective). -/
structure FaissState where
  vectors : List (List ℚ)
  tools : List (String × Nat × String)
  idxToTool : List (Nat × String)

/-- Python `s[:200]`. -/
def strTake (s : String) (n : Nat) : String :=
  ⟨s.data.take n⟩

/-- Translation of `_create_empty_index` (faiss_index.py lines 89-103):
fresh index, empty metadata. -/
def createEmptyIndex : FaissState := ⟨[], [], []⟩

/-- Python `tool_name in self.metadata["tools"]`. -/
def toolsHas (tools : List (String × Nat × String)) (name : String) : Bool :=
  tools.any (fun t => t.1 == name)

/-- Python dict assignment `d[k] = v`: update in place or append. -/
def assocSetTool (tools : List (String × Nat × String)) (name : String)
    (idx : Nat) (desc : String) : List (String × Nat × String) :=
  if toolsHas tools name then
    tools.map (fun t => if t.1 == name then (name, idx, desc) else t)
  else tools ++ [(name, idx, desc)]

/-- Python dict assignment on the idx -> name map. -/
def assocSetIdx (m : List (Nat × String)) (idx : Nat) (name : String) :
    List (Nat × String) :=
  if m.any (fun p => p.1 == idx) then
    m.map (fun p => if p.1 == idx then (idx, name) else p)
  else m ++ [(idx, name)]

/-- Python `self.metadata["idx_to_tool"].get(str(idx))`. -/
def lookupIdx (m : List (Nat × String)) (i : Nat) : Option String :=
  m.lookup i

/-- Translation of `FaissToolIndex.remove` (faiss_index.py lines 168-201).
A missing tool is a no-op.  Removing the last tool calls `clear`.
Otherwise `_rebuild_without` runs: it calls `_create_empty_index` and its
loop body is `pass`, so the index and both metadata maps come back empty
(the embeddings are lost; the code logs a warning telling the user to run a
rebuild). -/
def removeTool (s : FaissState) (name : String) : FaissState :=
  if toolsHas s.tools name = false then s
  else if (s.tools.filter (fun t => ¬ t.1 == name)).isEmpty then createEmptyIndex
  else createEmptyIndex

/-- Translation of `FaissToolIndex.add` (faiss_index.py lines 140-166): an
existing tool is removed first; the new vector is appended at position
`ntotal` and both metadata maps are updated. -/
def addTool (s : FaissState) (name : String) (emb : List ℚ) (desc : String) : FaissState :=
  let s1 := if toolsHas s.tools name then removeTool s name else s
  let idx := s1.vectors.length
  { vectors := s1.vectors ++ [emb]
    tools := assocSetTool s1.tools name idx (strTake desc 200)
    idxToTool := assocSetIdx s1.idxToTool idx name }

/-- Translation of `FaissToolIndex.clear` (faiss_index.py lines 249-253). -/
def clearIndex (_s : FaissState) : FaissState := createEmptyIndex

/-- Translation of `FaissToolIndex.verify` (faiss_index.py lines 255-275),
reduced to its `valid` flag: the index size matches the tool count and the
bidirectional name/position mapping agrees. -/
def verifyIndex (s : FaissState) : Bool :=
  (s.vectors.length == s.tools.length)
  && s.tools.all (fun t => lookupIdx s.idxToTool t.2.1 == some t.1)

/-- Well-formedness of the reachable index states: size agreement,
positions are exactly 0..n-1 in insertion order, and the reverse map
mirrors the tools map. -/
def WFIndex (s : FaissState) : Prop :=
  s.vectors.length = s.tools.length
  ∧ s.tools.map (fun t => t.2.1) = List.range s.tools.length
  ∧ s.idxToTool = s.tools.map (fun t => (t.2.1, t.1))

/-- Lookup in the mirrored idx map finds each tool's own entry when the
positions are distinct. -/
theorem lookup_pairs (l : List (String × Nat × String))
    (hnd : (l.map (fun t => t.2.1)).Nodup) :
    ∀ t ∈ l, (l.map (fun t => (t.2.1, t.1))).lookup t.2.1 = some t.1 := by
  induction l with
  | nil => intro t ht; cases ht
  | cons a tl ih =>
    simp only [List.map_cons, List.nodup_cons] at hnd
    intro t ht
    rcases List.mem_cons.mp ht with rfl | htl
    · simp [List.lookup]
    · have hne : t.2.1 ≠ a.2.1 := by
        intro heq
        exact hnd.1 (heq ▸ List.mem_map_of_mem (fun t => t.2.1) htl)
      have hbeq : (t.2.1 == a.2.1) = false := by
        simpa using hne
      simp only [List.map_cons, List.lookup_cons, hbeq]
      exact ih hnd.2 t htl

/-- A well-formed index state passes `verify`. -/
theorem verify_of_WF (s : FaissState) (h : WFIndex s) : verifyIndex s = true := by
  obtain ⟨h1, h2, h3⟩ := h
  unfold verifyIndex
  rw [Bool.and_eq_true]
  constructor
  · exact beq_iff_eq.mpr h1
  · rw [List.all_eq_true]
    intro t ht
    have hnd : (s.tools.map (fun t => t.2.1)).Nodup := by
      rw [h2]; exact List.nodup_range _
    rw [beq_iff_eq]
    unfold lookupIdx
    rw [h3]
    exact lookup_pairs s.tools hnd t ht

/-- The empty index state is well-formed. -/
theorem WF_empty : WFIndex createEmptyIndex := ⟨rfl, rfl, rfl⟩

/-- Removing a present tool resets the whole state (both the clear path and
the rebuild path of the source end in `_create_empty_index`). -/
theorem removeTool_of_has (s : FaissState) (name : String)
    (h : toolsHas s.tools name = true) : removeTool s name = createEmptyIndex := by
  unfold removeTool
  rw [h]
  simp

/-- `remove` preserves well-formedness. -/
theorem WF_removeTool (s : FaissState) (name : String) (h : WFIndex s) :
    WFIndex (removeTool s name) := by
  unfold removeTool
  split_ifs
  · exact h
  · exact WF_empty
  · exact WF_empty

/-- Key scan on the mirrored idx map matches the scan on positions. -/
theorem any_map_pairs (l : List (String × Nat × String)) (n : Nat) :
    ((l.map (fun t => (t.2.1, t.1))).any (fun p => p.1 == n)) = l.any (fun t => t.2.1 == n) := by
  induction l with
  | nil => rfl
  | cons a tl ih => simp [List.any_cons, ih]

/-- `add` preserves well-formedness. -/
theorem WF_addTool (s : FaissState) (name : String) (emb : List ℚ) (desc : String)
    (h : WFIndex s) : WFIndex (addTool s name emb desc) := by
  by_cases hhas : toolsHas s.tools name = true
  · unfold addTool
    rw [if_pos hhas, removeTool_of_has s name hhas]
    exact ⟨rfl, rfl, rfl⟩
  · obtain ⟨h1, h2, h3⟩ := h
    have hhas' : toolsHas s.tools name = false := by
      cases hval : toolsHas s.tools name with
      | false => rfl
      | true => exact absurd hval hhas
    have hkeys : s.idxToTool.any (fun p => p.1 == s.vectors.length) = false := by
      rw [h3, any_map_pairs]
      cases hval : s.tools.any (fun t => t.2.1 == s.vectors.length) with
      | false => rfl
      | true =>
        exfalso
        rw [List.any_eq_true] at hval
        obtain ⟨t, ht, hteq⟩ := hval
        have hmem : t.2.1 ∈ s.tools.map (fun t => t.2.1) :=
          List.mem_map_of_mem (fun t => t.2.1) ht
        rw [h2, List.mem_range] at hmem
        rw [beq_iff_eq] at hteq
        rw [hteq, h1] at hmem
        exact lt_irrefl _ hmem
    unfold addTool
    rw [if_neg (by rw [hhas']; exact Bool.false_ne_true)]
    refine ⟨?_, ?_, ?_⟩
    · simp only [assocSetTool, hhas', Bool.false_eq_true, if_false]
      simp [h1]
    · simp only [assocSetTool, hhas', Bool.false_eq_true, if_false]
      rw [List.map_append, h2, List.length_append, h1]
      simp [List.range_succ]
    · simp only [assocSetTool, assocSetIdx, hhas', hkeys, Bool.false_eq_true, if_false]
      rw [List.map_append, h3, h1]
      rfl

/-- `clear` preserves well-formedness. -/
theorem WF_clearIndex (s : FaissState) : WFIndex (clearIndex s) := WF_empty

/-- C9: from any well-formed (reachable) index state, each of `add`,
`remove` and `clear` leaves the index consistent: the number of stored
vectors equals the number of tools in the metadata and every recorded
(name, position) pair maps back to the same name through `idx_to_tool`
(this is exactly the `verify` check of the source).  Note that `remove` of
a present tool maintains the invariant vacuously: `_rebuild_without`
resets the metadata together with the index, so both sides are empty. -/
theorem faiss_index_consistency (s : FaissState) (name : String)
    (emb : List ℚ) (desc : String) (hwf : WFIndex s) :
    verifyIndex (addTool s name emb desc) = true
    ∧ verifyIndex (removeTool s name) = true
    ∧ verifyIndex (clearIndex s) = true :=
  ⟨verify_of_WF _ (WF_addTool s name emb desc hwf),
   verify_of_WF _ (WF_removeTool s name hwf),
   verify_of_WF _ (WF_clearIndex s)⟩

/-- Witness for C9: two adds and a remove from the empty state. -/
theorem faiss_index_consistency_witness :
    verifyIndex (addTool createEmptyIndex "docker_list_containers" [1] "lists containers") = true
    ∧ verifyIndex (removeTool (addTool createEmptyIndex "docker_list_containers" [1] "x") "docker_list_containers") = true := by
  constructor
  · exact (faiss_index_consistency createEmptyIndex "docker_list_containers" [1]
      "lists containers" WF_empty).1
  · exact (faiss_index_consistency
      (addTool createEmptyIndex "docker_list_containers" [1] "x")
      "docker_list_containers" [1] "x"
      (WF_addTool createEmptyIndex "docker_list_containers" [1] "x" WF_empty)).2.1

/-! ## Tool retriever (devops_agent/rag/tool_retriever.py)

The faiss search and the float cosine are external; scoring is the abstract
`sim` parameter and the descending sort models the score ordering of the
search results (`faiss.search` / Python `sort(reverse=True)`, both stable
in the model). -/

/-- One tool descriptor as held in `self.tools`. -/
structure ToolDesc where
  name : String
  description : String

/-- Stable descending insertion of an element by key. -/
def insertDesc {α : Type} (key : α → ℚ) (x : α) : List α → List α
  | [] => [x]
  | y :: ys => if key y ≤ key x then x :: y :: ys else y :: insertDesc key x ys

/-- Stable descending sort by key. -/
def sortDescBy {α : Type} (key : α → ℚ) : List α → List α
  | [] => []
  | x :: xs => insertDesc key x (sortDescBy key xs)

/-- Modelled from the spec for the external `faiss` search
(faiss_index.py lines 203-224): score every stored vector, keep the
`min(top_k, ntotal)` best, and map positions back to tool names through
`idx_to_tool`, skipping unknown positions. -/
def searchIndex (sim : List ℚ → List ℚ → ℚ) (s : FaissState) (qemb : List ℚ)
    (topK : Nat) : List (String × ℚ) :=
  if s.vectors.length = 0 then []
  else
    let k := min topK s.vectors.length
    let scored := (List.range s.vectors.length).map
      (fun i => (i, sim qemb (s.vectors.getD i [])))
    let top := (sortDescBy (fun p => p.2) scored).take k
    top.filterMap (fun p => (lookupIdx s.idxToTool p.1).map (fun n => (n, p.2)))

/-- The `{t['name']: t}` map of `_retrieve_faiss` (tool_retriever.py line
142), last duplicate winning as in a Python dict comprehension. -/
def toolMapFind (tools : List ToolDesc) (n : String) : Option ToolDesc :=
  tools.reverse.find? (fun t => t.name == n)

/-- Translation of `ToolRetriever._retrieve_faiss` (tool_retriever.py lines
137-143). -/
def retrieveFaiss (sim : List ℚ → List ℚ → ℚ) (tools : List ToolDesc)
    (f : FaissState) (qemb : List ℚ) (topK : Nat) : List ToolDesc :=
  (searchIndex sim f qemb topK).filterMap (fun p => toolMapFind tools p.1)

/-- Translation of `ToolRetriever._retrieve_json` (tool_retriever.py lines
145-158): score every tool (0.0 for a missing or empty cached embedding),
sort descending, take the first `top_k`. -/
def retrieveJson (sim : List ℚ → List ℚ → ℚ) (tools : List ToolDesc)
    (toolEmbeddings : List (String × List ℚ)) (qemb : List ℚ) (topK : Nat) :
    List ToolDesc :=
  let scores := tools.map (fun t =>
    match toolEmbeddings.reverse.lookup t.name with
    | some e => if e.isEmpty then ((0 : ℚ), t) else (sim qemb e, t)
    | none => ((0 : ℚ), t))
  ((sortDescBy (fun p => p.1) scores).take topK).map (fun p => p.2)

/-- Translation of `ToolRetriever.retrieve` (tool_retriever.py lines
120-135): an unavailable query embedding (empty result from the embedding
service) returns the complete tool list; otherwise the FAISS path is used
when a non-empty index is present, the JSON fallback otherwise. -/
def retrieveTools (sim : List ℚ → List ℚ → ℚ) (tools : List ToolDesc)
    (faiss : Option FaissState) (toolEmbeddings : List (String × List ℚ))
    (qemb : List ℚ) (topK : Nat) : List ToolDesc :=
  if qemb.isEmpty then tools
  else
    match faiss with
    | some f =>
      if 0 < f.tools.length then retrieveFaiss sim tools f qemb topK
      else retrieveJson sim tools toolEmbeddings qemb topK
    | none => retrieveJson sim tools toolEmbeddings qemb topK

/-- Descending insertion adds one element to the length. -/
theorem length_insertDesc {α : Type} (key : α → ℚ) (x : α) (l : List α) :
    (insertDesc key x l).length = l.length + 1 := by
  induction l with
  | nil => rfl
  | cons y ys ih =>
    unfold insertDesc
    split_ifs
    · rfl
    · simp [ih]

/-- Descending sort preserves the length. -/
theorem length_sortDescBy {α : Type} (key : α → ℚ) (l : List α) :
    (sortDescBy key l).length = l.length := by
  induction l with
  | nil => rfl
  | cons x xs ih =>
    unfold sortDescBy
    rw [length_insertDesc, ih]
    rfl

/-- The search returns at most `top_k` hits. -/
theorem length_searchIndex (sim : List ℚ → List ℚ → ℚ) (s : FaissState)
    (qemb : List ℚ) (topK : Nat) :
    (searchIndex sim s qemb topK).length ≤ topK := by
  unfold searchIndex
  split_ifs
  · simp
  · refine le_trans (List.length_filterMap_le _ _) ?_
    refine le_trans (le_of_eq (List.length_take _ _)) ?_
    exact le_trans (min_le_left _ _) (min_le_left _ _)

/-- The FAISS retrieval path returns at most `top_k` descriptors. -/
theorem length_retrieveFaiss (sim : List ℚ → List ℚ → ℚ) (tools : List ToolDesc)
    (f : FaissState) (qemb : List ℚ) (topK : Nat) :
    (retrieveFaiss sim tools f qemb topK).length ≤ topK := by
  unfold retrieveFaiss
  exact le_trans (List.length_filterMap_le _ _) (length_searchIndex sim f qemb topK)

/-- The JSON fallback path returns at most `top_k` descriptors. -/
theorem length_retrieveJson (sim : List ℚ → List ℚ → ℚ) (tools : List ToolDesc)
    (tEmb : List (String × List ℚ)) (qemb : List ℚ) (topK : Nat) :
    (retrieveJson sim tools tEmb qemb topK).length ≤ topK := by
  unfold retrieveJson
  rw [List.length_map, List.length_take]
  exact min_le_left _ _

/-- C10: when the embedding request for the query comes back empty,
`retrieve` returns the complete tool descriptor list (which may exceed
`top_k` entries); with an embedding available it returns at most `top_k`
descriptors on both the FAISS path and the JSON fallback path. -/
theorem retrieve_fallback_and_topk (sim : List ℚ → List ℚ → ℚ)
    (tools : List ToolDesc) (faiss : Option FaissState)
    (tEmb : List (String × List ℚ)) (qemb : List ℚ) (topK : Nat) :
    (qemb = [] → retrieveTools sim tools faiss tEmb qemb topK = tools)
    ∧ (qemb ≠ [] → (retrieveTools sim tools faiss tEmb qemb topK).length ≤ topK) := by
  constructor
  · intro h
    simp [retrieveTools, h]
  · intro h
    have hq : qemb.isEmpty = false := by
      cases qemb with
      | nil => exact absurd rfl h
      | cons x t => rfl
    unfold retrieveTools
    rw [hq]
    simp only [Bool.false_eq_true, if_false]
    cases faiss with
    | none => exact length_retrieveJson sim tools tEmb qemb topK
    | some f =>
      show (if 0 < f.tools.length then retrieveFaiss sim tools f qemb topK
        else retrieveJson sim tools tEmb qemb topK).length ≤ topK
      by_cases hcount : 0 < f.tools.length
      · rw [if_pos hcount]
        exact length_retrieveFaiss sim tools f qemb topK
      · rw [if_neg hcount]
        exact length_retrieveJson sim tools tEmb qemb topK

/-- Witness for C10: with no embedding the full 2-tool list is returned
despite `top_k = 1`; with an embedding the result is bounded by `top_k`. -/
theorem retrieve_fallback_and_topk_witness :
    retrieveTools (simConstQ 0) [⟨"docker_list_containers", "d"⟩, ⟨"local_k8s_list_pods", "p"⟩]
        none [] [] 1
      = [⟨"docker_list_containers", "d"⟩, ⟨"local_k8s_list_pods", "p"⟩]
    ∧ (retrieveTools (simConstQ 0) [⟨"docker_list_containers", "d"⟩, ⟨"local_k8s_list_pods", "p"⟩]
        none [] [1] 1).length ≤ 1 := by
  constructor
  · exact (retrieve_fallback_and_topk (simConstQ 0) _ none [] [] 1).1 rfl
  · exact (retrieve_fallback_and_topk (simConstQ 0) _ none [] [1] 1).2 (by simp)
